import Mathlib

/-!
# Verification of the crux command/effect runtime and its example apps

This development shallowly embeds the crux application kernel (the
"hexagonal core / platform shell" runtime) and the applications found in
the repository sources:

* the KV test application (`crux_kv/src/tests.rs`),
* the HTTP test application (`crux_http/tests/with_tester.rs`),
* the cat_facts example application (`examples/cat_facts/shared/src/app.rs`),
* the Render capability (`crux_core/src/capabilities/render.rs`).

The runtime itself (command algebra, cooperative executor, request table,
`process_event` / `resolve` facade) is not part of the given sources; it is
modelled from the specification (sections 3 to 6).  Machine bytes are
modelled as lists of naturals, native integer endianness is modelled as
little-endian, and panics are modelled by a dedicated `panic` constructor
that sets a `crashed` flag on the core state.
-/

namespace Crux

/-- Modelled from the spec (4.A Operation registry): each operation type
declares its associated response type at the type level. -/
class Operation (α : Type) where
  Output : Type

mutual

/-- Modelled from the spec (4.E Command algebra): an immutable description of
work, with constructors `none`, `event e`, `effect t`, `join a b`, plus a
`panic` marker standing for a panic inside `update` or a task.  `join_effect`
and `map` are the derived forms defined below. -/
inductive Command (Op Resp Ev : Type) : Type where
  | none : Command Op Resp Ev
  | event (e : Ev) : Command Op Resp Ev
  | effectT (t : Task Op Resp Ev) : Command Op Resp Ev
  | join (a b : Command Op Resp Ev) : Command Op Resp Ev
  | panic : Command Op Resp Ev

/-- Modelled from the spec (3 Data model, 9 Design notes): a task is a state
machine with explicit continuations; `await` points on capability calls
become parked states keyed by a Request identifier.  `await2` is the
suspension produced by joining two in-flight shell requests (`futures join`):
both requests are enqueued, in source order, when the task first suspends. -/
inductive Task (Op Resp Ev : Type) : Type where
  | pure (c : Command Op Resp Ev) : Task Op Resp Ev
  | await (op : Op) (k : Resp → Task Op Resp Ev) : Task Op Resp Ev
  | await2 (opA opB : Op) (k : Resp → Resp → Task Op Resp Ev) : Task Op Resp Ev
  | panic : Task Op Resp Ev

end

/-- Derived command: `join_effect(a, fut)` is shorthand for
`join(a, effect(fut))` (spec 4.E). -/
def Command.joinEffect {Op Resp Ev : Type} (a : Command Op Resp Ev)
    (t : Task Op Resp Ev) : Command Op Resp Ev :=
  Command.join a (Command.effectT t)

mutual

/-- Derived command: `map(cmd, f)` transforms every event produced by `cmd`
through `f`; effects are untouched (spec 4.E). -/
def Command.mapEv {Op Resp Ev Ev' : Type} (f : Ev → Ev') :
    Command Op Resp Ev → Command Op Resp Ev'
  | .none => .none
  | .event e => .event (f e)
  | .effectT t => .effectT (Task.mapEv f t)
  | .join a b => .join (Command.mapEv f a) (Command.mapEv f b)
  | .panic => .panic

/-- Event mapping on tasks, used by `Command.mapEv`. -/
def Task.mapEv {Op Resp Ev Ev' : Type} (f : Ev → Ev') :
    Task Op Resp Ev → Task Op Resp Ev'
  | .pure c => .pure (Command.mapEv f c)
  | .await op k => .await op (fun r => Task.mapEv f (k r))
  | .await2 opA opB k => .await2 opA opB (fun r1 r2 => Task.mapEv f (k r1 r2))
  | .panic => .panic

end

/-- Modelled from the spec (3 Request, 4.D parked-set): a parked task keyed by
the request(s) it awaits.  `single` is a task awaiting one OneShot request;
`pair` is a task suspended on a `futures join` of two OneShot requests. -/
inductive Entry (Op Resp Ev : Type) : Type where
  | single (id : Nat) (k : Resp → Task Op Resp Ev) : Entry Op Resp Ev
  | pair (idA idB : Nat) (k : Resp → Resp → Task Op Resp Ev) : Entry Op Resp Ev

/-- The request identifiers an entry is parked on. -/
def Entry.ids {Op Resp Ev : Type} : Entry Op Resp Ev → List Nat
  | .single i _ => [i]
  | .pair a b _ => [a, b]

/-- All request identifiers of a parked-set, in order. -/
def pendingIds {Op Resp Ev : Type} : List (Entry Op Resp Ev) → List Nat
  | [] => []
  | e :: rest => e.ids ++ pendingIds rest

/-- Modelled from the spec (4.C, 4.D): the executor state during one turn:
the fresh-request counter, the parked-set, the turn's event buffer, the
effect queue, and the crash flag recording a propagated panic. -/
structure ExecSt (Op Resp Ev : Type) : Type where
  nextId : Nat
  pending : List (Entry Op Resp Ev)
  events : List Ev
  effects : List (Nat × Op)
  crashed : Bool

mutual

/-- Modelled from the spec (4.D, 4.E): reduction of a command by the executor.
Events are appended to the turn's event buffer, `join` reduces both sides in
source order, `effect` runs its task. -/
def runCommand {Op Resp Ev : Type} :
    Command Op Resp Ev → ExecSt Op Resp Ev → ExecSt Op Resp Ev
  | .none, s => s
  | .event e, s => { s with events := s.events ++ [e] }
  | .effectT t, s => runTask t s
  | .join a b, s => runCommand b (runCommand a s)
  | .panic, s => { s with crashed := true }

/-- Modelled from the spec (4.D): running a task until it completes or
suspends.  A suspension allocates fresh request id(s), pushes the effect(s)
onto the effect queue and parks the task. -/
def runTask {Op Resp Ev : Type} :
    Task Op Resp Ev → ExecSt Op Resp Ev → ExecSt Op Resp Ev
  | .pure c, s => runCommand c s
  | .await op k, s =>
      { s with
        nextId := s.nextId + 1
        pending := s.pending ++ [.single s.nextId k]
        effects := s.effects ++ [(s.nextId, op)] }
  | .await2 opA opB k, s =>
      { s with
        nextId := s.nextId + 2
        pending := s.pending ++ [.pair s.nextId (s.nextId + 1) k]
        effects := s.effects ++ [(s.nextId, opA), (s.nextId + 1, opB)] }
  | .panic, s => { s with crashed := true }

end

/-- Modelled from the spec (4.G, 6): the state of one Core instance between
turns: the app's model, the fresh-request counter and the parked-set. -/
structure CoreState (Op Resp Ev Model : Type) : Type where
  model : Model
  nextId : Nat
  pending : List (Entry Op Resp Ev)
  crashed : Bool

/-- Modelled from the spec (4.G): the observable output of one turn, the
events and effects accumulated since the call. -/
structure TurnOut (Op Ev : Type) : Type where
  events : List Ev
  effects : List (Nat × Op)

/-- Modelled from the spec (4.G `process_event`): run `update`, then reduce
the returned command to quiescence. -/
def processEvent {Op Resp Ev Model : Type}
    (upd : Ev → Model → Model × Command Op Resp Ev) (e : Ev)
    (st : CoreState Op Resp Ev Model) :
    TurnOut Op Ev × CoreState Op Resp Ev Model :=
  let mc := upd e st.model
  let ex := runCommand mc.2 ⟨st.nextId, st.pending, [], [], st.crashed⟩
  (⟨ex.events, ex.effects⟩, ⟨mc.1, ex.nextId, ex.pending, ex.crashed⟩)

/-- Modelled from the spec (4.B, 4.G `resolve`): locate the parked task for a
request id and feed it the response.  Resolving one side of a `pair` leaves a
`single` waiting for the other side; the first component is `some t` when the
woken task can run. -/
def findResolve {Op Resp Ev : Type} (id : Nat) (r : Resp) :
    List (Entry Op Resp Ev) →
    Option (Option (Task Op Resp Ev) × List (Entry Op Resp Ev))
  | [] => Option.none
  | .single i k :: rest =>
      if i = id then some (some (k r), rest)
      else (findResolve id r rest).map fun x => (x.1, .single i k :: x.2)
  | .pair a b k :: rest =>
      if a = id then some (Option.none, .single b (fun rb => k r rb) :: rest)
      else if b = id then some (Option.none, .single a (fun ra => k ra r) :: rest)
      else (findResolve id r rest).map fun x => (x.1, .pair a b k :: x.2)

/-- Modelled from the spec (4.G, 7): feed a response into a parked Request and
drive the executor to quiescence.  Resolving an unknown or already-resolved
OneShot handle returns the benign `Option.none` indication and changes no
state. -/
def resolve {Op Resp Ev Model : Type} (st : CoreState Op Resp Ev Model)
    (id : Nat) (r : Resp) :
    Option (TurnOut Op Ev) × CoreState Op Resp Ev Model :=
  match findResolve id r st.pending with
  | Option.none => (Option.none, st)
  | some (Option.none, p') => (some ⟨[], []⟩, { st with pending := p' })
  | some (some t, p') =>
      let ex := runTask t ⟨st.nextId, p', [], [], st.crashed⟩
      (some ⟨ex.events, ex.effects⟩, ⟨st.model, ex.nextId, ex.pending, ex.crashed⟩)

/-- Modelled from the spec (4.G `view`): the pure view projection; it never
triggers the executor and leaves the core state untouched. -/
def viewFacade {Op Resp Ev Model VM : Type} (viewFn : Model → VM)
    (st : CoreState Op Resp Ev Model) : VM × CoreState Op Resp Ev Model :=
  (viewFn st.model, st)

/-- A recorded transcript entry: one host call into the facade (spec 8.1). -/
inductive Input (Resp Ev : Type) : Type where
  | event (e : Ev) : Input Resp Ev
  | resolve (id : Nat) (r : Resp) : Input Resp Ev

/-- One host call into the facade, as a function. -/
def coreStep {Op Resp Ev Model : Type}
    (upd : Ev → Model → Model × Command Op Resp Ev)
    (st : CoreState Op Resp Ev Model) :
    Input Resp Ev → Option (TurnOut Op Ev) × CoreState Op Resp Ev Model
  | .event e =>
      let p := processEvent upd e st
      (some p.1, p.2)
  | .resolve id r => resolve st id r

mutual

/-- Small-step reduction of commands as a relation (spec 4.E: "Reduction is
small-step and deterministic"). -/
inductive RedC {Op Resp Ev : Type} :
    Command Op Resp Ev → ExecSt Op Resp Ev → ExecSt Op Resp Ev → Prop where
  | none {s} : RedC .none s s
  | event {e s} : RedC (.event e) s { s with events := s.events ++ [e] }
  | effectT {t s s'} : RedT t s s' → RedC (.effectT t) s s'
  | join {a b s s1 s2} : RedC a s s1 → RedC b s1 s2 → RedC (.join a b) s s2
  | panic {s} : RedC .panic s { s with crashed := true }

/-- Small-step reduction of tasks as a relation. -/
inductive RedT {Op Resp Ev : Type} :
    Task Op Resp Ev → ExecSt Op Resp Ev → ExecSt Op Resp Ev → Prop where
  | pure {c s s'} : RedC c s s' → RedT (.pure c) s s'
  | await {op k s} :
      RedT (.await op k) s
        ⟨s.nextId + 1, s.pending ++ [.single s.nextId k], s.events,
          s.effects ++ [(s.nextId, op)], s.crashed⟩
  | await2 {opA opB k s} :
      RedT (.await2 opA opB k) s
        ⟨s.nextId + 2, s.pending ++ [.pair s.nextId (s.nextId + 1) k], s.events,
          s.effects ++ [(s.nextId, opA), (s.nextId + 1, opB)], s.crashed⟩
  | panic {s} : RedT .panic s { s with crashed := true }

end

mutual

/-- The reduction relation agrees with the executor function. -/
theorem redC_eq {Op Resp Ev : Type} (c : Command Op Resp Ev) :
    ∀ s s', RedC c s s' → runCommand c s = s' := by
  intro s s' h
  cases c with
  | none => cases h; rfl
  | event e => cases h; rfl
  | effectT t => cases h with
    | effectT ht => exact redT_eq t s s' ht
  | join a b => cases h with
    | join ha hb =>
        rename_i s1
        rw [runCommand, redC_eq a s s1 ha]
        exact redC_eq b s1 s' hb
  | panic => cases h; rfl

/-- The task-reduction relation agrees with the executor function. -/
theorem redT_eq {Op Resp Ev : Type} (t : Task Op Resp Ev) :
    ∀ s s', RedT t s s' → runTask t s = s' := by
  intro s s' h
  cases t with
  | pure c => cases h with
    | pure hc => exact redC_eq c s s' hc
  | await op k => cases h; rfl
  | await2 opA opB k => cases h; rfl
  | panic => cases h; rfl

end

/-- Command reduction is deterministic. -/
theorem redC_det {Op Resp Ev : Type} {c : Command Op Resp Ev} {s s1 s2}
    (h1 : RedC c s s1) (h2 : RedC c s s2) : s1 = s2 := by
  rw [← redC_eq c s s1 h1, ← redC_eq c s s2 h2]

/-- One host call into the facade, as a relation (spec 4.G). -/
inductive Step {Op Resp Ev Model : Type}
    (upd : Ev → Model → Model × Command Op Resp Ev) :
    CoreState Op Resp Ev Model → Input Resp Ev →
    Option (TurnOut Op Ev) × CoreState Op Resp Ev Model → Prop where
  | procEv {st : CoreState Op Resp Ev Model} {e m' cmd ex} :
      upd e st.model = (m', cmd) →
      RedC cmd ⟨st.nextId, st.pending, [], [], st.crashed⟩ ex →
      Step upd st (.event e)
        (some ⟨ex.events, ex.effects⟩, ⟨m', ex.nextId, ex.pending, ex.crashed⟩)
  | resolveTask {st : CoreState Op Resp Ev Model} {id r t p' ex} :
      findResolve id r st.pending = some (some t, p') →
      RedT t ⟨st.nextId, p', [], [], st.crashed⟩ ex →
      Step upd st (.resolve id r)
        (some ⟨ex.events, ex.effects⟩,
          ⟨st.model, ex.nextId, ex.pending, ex.crashed⟩)
  | resolvePair {st : CoreState Op Resp Ev Model} {id r p'} :
      findResolve id r st.pending = some (Option.none, p') →
      Step upd st (.resolve id r) (some ⟨[], []⟩, { st with pending := p' })
  | resolveMiss {st : CoreState Op Resp Ev Model} {id r} :
      findResolve id r st.pending = (Option.none :
        Option (Option (Task Op Resp Ev) × List (Entry Op Resp Ev))) →
      Step upd st (.resolve id r) (Option.none, st)

/-- The step relation agrees with the facade functions. -/
theorem step_eq {Op Resp Ev Model : Type}
    {upd : Ev → Model → Model × Command Op Resp Ev}
    {st : CoreState Op Resp Ev Model} {i out} (h : Step upd st i out) :
    coreStep upd st i = out := by
  cases h with
  | procEv hu hr =>
      simp only [coreStep, processEvent, hu, redC_eq _ _ _ hr]
  | resolveTask hf hr =>
      simp only [coreStep, resolve, hf, redT_eq _ _ _ hr]
  | resolvePair hf =>
      simp only [coreStep, resolve, hf]
  | resolveMiss hf =>
      simp only [coreStep, resolve, hf]

/-- The step relation is deterministic. -/
theorem step_det {Op Resp Ev Model : Type}
    {upd : Ev → Model → Model × Command Op Resp Ev}
    {st : CoreState Op Resp Ev Model} {i out1 out2}
    (h1 : Step upd st i out1) (h2 : Step upd st i out2) : out1 = out2 := by
  rw [← step_eq h1, ← step_eq h2]

/-- Replaying a recorded transcript of host calls (spec 8.1). -/
inductive Replay {Op Resp Ev Model : Type}
    (upd : Ev → Model → Model × Command Op Resp Ev) :
    CoreState Op Resp Ev Model → List (Input Resp Ev) →
    List (Option (TurnOut Op Ev)) → CoreState Op Resp Ev Model → Prop where
  | nil {st} : Replay upd st [] [] st
  | cons {st i o st' rest os stF} :
      Step upd st i (o, st') → Replay upd st' rest os stF →
      Replay upd st (i :: rest) (o :: os) stF

/-- `pendingIds` distributes over append. -/
theorem pendingIds_append {Op Resp Ev : Type}
    (l1 l2 : List (Entry Op Resp Ev)) :
    pendingIds (l1 ++ l2) = pendingIds l1 ++ pendingIds l2 := by
  induction l1 with
  | nil => rfl
  | cons e rest ih => simp [pendingIds, ih]

/-- An executor state at the start of a turn: counter `n`, nothing else. -/
def blank {Op Resp Ev : Type} (n : Nat) : ExecSt Op Resp Ev :=
  ⟨n, [], [], [], false⟩

mutual

/-- Frame property of command reduction: the initial parked-set, event buffer,
effect queue and crash flag are only ever appended to / or-ed with what the
command itself produces from an empty turn. -/
theorem runC_frame {Op Resp Ev : Type} (c : Command Op Resp Ev) :
    ∀ s : ExecSt Op Resp Ev,
      runCommand c s =
        ⟨(runCommand c (blank s.nextId)).nextId,
          s.pending ++ (runCommand c (blank s.nextId)).pending,
          s.events ++ (runCommand c (blank s.nextId)).events,
          s.effects ++ (runCommand c (blank s.nextId)).effects,
          s.crashed || (runCommand c (blank s.nextId)).crashed⟩ := by
  intro s
  cases c with
  | none => simp [runCommand, blank]
  | event e => simp [runCommand, blank]
  | effectT t => exact runT_frame t s
  | join a b =>
      simp only [runCommand]
      rw [runC_frame a s]
      rw [runC_frame b ⟨(runCommand a (blank s.nextId)).nextId,
        s.pending ++ (runCommand a (blank s.nextId)).pending,
        s.events ++ (runCommand a (blank s.nextId)).events,
        s.effects ++ (runCommand a (blank s.nextId)).effects,
        s.crashed || (runCommand a (blank s.nextId)).crashed⟩]
      rw [runC_frame b (runCommand a (blank s.nextId))]
      simp [blank, List.append_assoc, Bool.or_assoc]
  | panic => simp [runCommand, blank]

/-- Frame property of task reduction. -/
theorem runT_frame {Op Resp Ev : Type} (t : Task Op Resp Ev) :
    ∀ s : ExecSt Op Resp Ev,
      runTask t s =
        ⟨(runTask t (blank s.nextId)).nextId,
          s.pending ++ (runTask t (blank s.nextId)).pending,
          s.events ++ (runTask t (blank s.nextId)).events,
          s.effects ++ (runTask t (blank s.nextId)).effects,
          s.crashed || (runTask t (blank s.nextId)).crashed⟩ := by
  intro s
  cases t with
  | pure c => exact runC_frame c s
  | await op k => simp [runTask, blank]
  | await2 opA opB k => simp [runTask, blank]
  | panic => simp [runTask, blank]

end

/-- The effects a command contributes to a turn, starting from counter `n`. -/
def turnEffects {Op Resp Ev : Type} (c : Command Op Resp Ev) (n : Nat) :
    List (Nat × Op) :=
  (runCommand c (blank n)).effects

/-- The request counter after a command is reduced, starting from `n`. -/
def turnNext {Op Resp Ev : Type} (c : Command Op Resp Ev) (n : Nat) : Nat :=
  (runCommand c (blank n)).nextId

/-- Effect ordering under `join` (spec 8.3): within a turn, the effects of
`join a b` are the already-queued effects, then all of `a`'s effects, then
all of `b`'s effects. -/
theorem join_effects_ordered {Op Resp Ev : Type} (a b : Command Op Resp Ev)
    (s : ExecSt Op Resp Ev) :
    (runCommand (Command.join a b) s).effects =
      s.effects ++ turnEffects a s.nextId ++
        turnEffects b (turnNext a s.nextId) := by
  simp only [runCommand, turnEffects, turnNext]
  rw [runC_frame b (runCommand a s), runC_frame a s]

mutual

/-- Requests created while reducing a command are fresh: every id parked by
the reduction is at least the initial counter, and the counter never
decreases. -/
theorem runC_fresh {Op Resp Ev : Type} (c : Command Op Resp Ev) :
    ∀ n : Nat, n ≤ (runCommand c (blank n : ExecSt Op Resp Ev)).nextId ∧
      ∀ i ∈ pendingIds (runCommand c (blank n : ExecSt Op Resp Ev)).pending,
        n ≤ i := by
  intro n
  cases c with
  | none => simp [runCommand, blank, pendingIds]
  | event e => simp [runCommand, blank, pendingIds]
  | effectT t => exact runT_fresh t n
  | join a b =>
      have ha := runC_fresh a n
      have hb := runC_fresh b (runCommand a (blank n : ExecSt Op Resp Ev)).nextId
      simp only [runCommand]
      rw [runC_frame b (runCommand a (blank n))]
      constructor
      · exact le_trans ha.1 hb.1
      · intro i hi
        rw [pendingIds_append] at hi
        rcases List.mem_append.mp hi with h | h
        · exact ha.2 i h
        · exact le_trans ha.1 (hb.2 i h)
  | panic => simp [runCommand, blank, pendingIds]

/-- Requests created while running a task are fresh. -/
theorem runT_fresh {Op Resp Ev : Type} (t : Task Op Resp Ev) :
    ∀ n : Nat, n ≤ (runTask t (blank n : ExecSt Op Resp Ev)).nextId ∧
      ∀ i ∈ pendingIds (runTask t (blank n : ExecSt Op Resp Ev)).pending,
        n ≤ i := by
  intro n
  cases t with
  | pure c => exact runC_fresh c n
  | await op k =>
      refine ⟨by simp [runTask, blank], ?_⟩
      intro i hi
      simp [runTask, blank, pendingIds, Entry.ids] at hi
      omega
  | await2 opA opB k =>
      refine ⟨by simp [runTask, blank], ?_⟩
      intro i hi
      simp [runTask, blank, pendingIds, Entry.ids] at hi
      rcases hi with h | h <;> omega
  | panic =>
      refine ⟨by simp [runTask, blank], ?_⟩
      intro i hi
      simp [runTask, blank, pendingIds] at hi

end

/-- A successfully-located request id is among the parked ids. -/
theorem mem_of_findResolve {Op Resp Ev : Type} {id : Nat} {r : Resp}
    {l : List (Entry Op Resp Ev)} {x} (h : findResolve id r l = some x) :
    id ∈ pendingIds l := by
  induction l generalizing x with
  | nil => simp [findResolve] at h
  | cons e rest ih =>
      cases e with
      | single i k =>
          by_cases hi : i = id
          · subst hi; simp [pendingIds, Entry.ids]
          · rw [findResolve, if_neg hi] at h
            rcases Option.map_eq_some'.mp h with ⟨y, hy, _⟩
            simp only [pendingIds, Entry.ids, List.mem_append,
              List.mem_singleton]
            exact Or.inr (ih hy)
      | pair a b k =>
          by_cases ha : a = id
          · subst ha; simp [pendingIds, Entry.ids]
          · by_cases hb : b = id
            · subst hb; simp [pendingIds, Entry.ids]
            · rw [findResolve, if_neg ha, if_neg hb] at h
              rcases Option.map_eq_some'.mp h with ⟨y, hy, _⟩
              simp only [pendingIds, Entry.ids, List.mem_append,
                List.mem_cons, List.not_mem_nil, or_false]
              exact Or.inr (ih hy)

/-- After a request id has been located and consumed, it no longer occurs in
the remaining parked-set (given distinct parked ids). -/
theorem not_mem_rest_of_findResolve {Op Resp Ev : Type} {id : Nat} {r : Resp}
    {l : List (Entry Op Resp Ev)} {act rest}
    (h : findResolve id r l = some (act, rest))
    (hd : (pendingIds l).Nodup) : id ∉ pendingIds rest := by
  induction l generalizing act rest with
  | nil => simp [findResolve] at h
  | cons e tail ih =>
      cases e with
      | single i k =>
          have hd' : ¬ i ∈ pendingIds tail ∧ (pendingIds tail).Nodup := by
            simpa [pendingIds, Entry.ids] using hd
          by_cases hi : i = id
          · subst hi
            rw [findResolve, if_pos rfl] at h
            have h' := Option.some.inj h
            have hrest : tail = rest := congrArg Prod.snd h'
            subst hrest
            exact hd'.1
          · rw [findResolve, if_neg hi] at h
            rcases Option.map_eq_some'.mp h with ⟨⟨act', rest'⟩, hy, hxy⟩
            have hrest : Entry.single i k :: rest' = rest :=
              congrArg Prod.snd hxy
            subst hrest
            intro hmem
            simp only [pendingIds, Entry.ids, List.mem_append,
              List.mem_singleton] at hmem
            rcases hmem with hmem | hmem
            · exact hi hmem.symm
            · exact ih hy hd'.2 hmem
      | pair a b k =>
          have hd' : (¬ a = b ∧ ¬ a ∈ pendingIds tail) ∧
              ¬ b ∈ pendingIds tail ∧ (pendingIds tail).Nodup := by
            simpa [pendingIds, Entry.ids] using hd
          by_cases ha : a = id
          · subst ha
            rw [findResolve, if_pos rfl] at h
            have h' := Option.some.inj h
            have hrest : Entry.single b (fun rb => k r rb) :: tail = rest :=
              congrArg Prod.snd h'
            subst hrest
            intro hmem
            simp only [pendingIds, Entry.ids, List.mem_append,
              List.mem_singleton] at hmem
            rcases hmem with hmem | hmem
            · exact hd'.1.1 hmem
            · exact hd'.1.2 hmem
          · by_cases hb : b = id
            · subst hb
              rw [findResolve, if_neg ha, if_pos rfl] at h
              have h' := Option.some.inj h
              have hrest : Entry.single a (fun ra => k ra r) :: tail = rest :=
                congrArg Prod.snd h'
              subst hrest
              intro hmem
              simp only [pendingIds, Entry.ids, List.mem_append,
                List.mem_singleton] at hmem
              rcases hmem with hmem | hmem
              · exact ha hmem.symm
              · exact hd'.2.1 hmem
            · rw [findResolve, if_neg ha, if_neg hb] at h
              rcases Option.map_eq_some'.mp h with ⟨⟨act', rest'⟩, hy, hxy⟩
              have hrest : Entry.pair a b k :: rest' = rest :=
                congrArg Prod.snd hxy
              subst hrest
              intro hmem
              simp only [pendingIds, Entry.ids, List.mem_append,
                List.mem_cons, List.not_mem_nil, or_false] at hmem
              rcases hmem with (hmem | hmem) | hmem
              · exact ha hmem.symm
              · exact hb hmem.symm
              · exact ih hy hd'.2.2 hmem

/-- A request id that is not parked cannot be resolved. -/
theorem findResolve_eq_none {Op Resp Ev : Type} {id : Nat} (r : Resp)
    {l : List (Entry Op Resp Ev)} (h : id ∉ pendingIds l) :
    findResolve id r l = Option.none := by
  induction l with
  | nil => rfl
  | cons e rest ih =>
      cases e with
      | single i k =>
          have h1 : ¬ i = id := by
            intro hc; subst hc
            exact h (by simp [pendingIds, Entry.ids])
          have h2 : id ∉ pendingIds rest := by
            intro hc; exact h (by simp [pendingIds, Entry.ids, hc])
          rw [findResolve, if_neg h1, ih h2]
          rfl
      | pair a b k =>
          have h1 : ¬ a = id := by
            intro hc; subst hc
            exact h (by simp [pendingIds, Entry.ids])
          have h2 : ¬ b = id := by
            intro hc; subst hc
            exact h (by simp [pendingIds, Entry.ids])
          have h3 : id ∉ pendingIds rest := by
            intro hc; exact h (by simp [pendingIds, Entry.ids, hc])
          rw [findResolve, if_neg h1, if_neg h2, ih h3]
          rfl

/-- Well-formedness of a core state (spec 3 Invariants): parked request ids
are pairwise distinct and below the fresh-request counter. -/
def WF {Op Resp Ev Model : Type} (st : CoreState Op Resp Ev Model) : Prop :=
  (pendingIds st.pending).Nodup ∧ ∀ i ∈ pendingIds st.pending, i < st.nextId

/-- A trivial app used to exercise the generic facade. -/
def trivialUpdate : Unit → Unit → Unit × Command Unit Unit Unit :=
  fun _ _ => ((), Command.none)

/-- C1: For any app, any initial model, and any recorded transcript of
`process_event` / `resolve` calls (with the same payloads), replaying the
transcript yields identical event and effect sequences: reduction of
commands is deterministic, so two runs of the same transcript are
observationally equal. -/
theorem determinism_of_transcript_replay {Op Resp Ev Model : Type}
    {upd : Ev → Model → Model × Command Op Resp Ev}
    {st st1 st2 : CoreState Op Resp Ev Model} {t : List (Input Resp Ev)}
    {os1 os2 : List (Option (TurnOut Op Ev))}
    (h1 : Replay upd st t os1 st1) (h2 : Replay upd st t os2 st2) :
    os1 = os2 ∧ st1 = st2 := by
  induction h1 generalizing os2 st2 with
  | nil => cases h2; exact ⟨rfl, rfl⟩
  | cons hs hr ih =>
      cases h2 with
      | cons hs2 hr2 =>
          have hpair := step_det hs hs2
          have ho := congrArg Prod.fst hpair
          have hst := congrArg Prod.snd hpair
          simp only at ho hst
          subst hst
          rcases ih hr2 with ⟨hos, hfinal⟩
          exact ⟨by rw [ho, hos], hfinal⟩

/-- Witness for C1 at a concrete app and transcript. -/
theorem determinism_of_transcript_replay_witness :
    ([some (⟨[], []⟩ : TurnOut Unit Unit)] = [some ⟨[], []⟩]) ∧
      ((⟨(), 0, [], false⟩ : CoreState Unit Unit Unit Unit) =
        ⟨(), 0, [], false⟩) :=
  @determinism_of_transcript_replay Unit Unit Unit Unit trivialUpdate
    ⟨(), 0, [], false⟩ ⟨(), 0, [], false⟩ ⟨(), 0, [], false⟩
    [Input.event ()] [some ⟨[], []⟩] [some ⟨[], []⟩]
    (Replay.cons
      (@Step.procEv Unit Unit Unit Unit trivialUpdate ⟨(), 0, [], false⟩ ()
        () Command.none ⟨0, [], [], [], false⟩ rfl RedC.none) Replay.nil)
    (Replay.cons
      (@Step.procEv Unit Unit Unit Unit trivialUpdate ⟨(), 0, [], false⟩ ()
        () Command.none ⟨0, [], [], [], false⟩ rfl RedC.none) Replay.nil)

/-- C4: For every OneShot Request, at most one response is delivered to the
awaiting task regardless of how many `resolve` calls target it: after
`resolve(h, r1)` succeeds, a second `resolve(h, r2)` on the same handle
returns a benign "not outstanding" indication (not a fatal error) and
changes no state: no events or effects are produced and the second response
is discarded. -/
theorem oneshot_at_most_once {Op Resp Ev Model : Type}
    {st st' : CoreState Op Resp Ev Model} {id : Nat} {r1 r2 : Resp}
    {out : TurnOut Op Ev}
    (hwf : WF st) (h : resolve st id r1 = (some out, st')) :
    resolve st' id r2 = (Option.none, st') := by
  cases hf : findResolve id r1 st.pending with
  | none =>
      have hres : resolve st id r1 = (Option.none, st) := by
        simp [resolve, hf]
      rw [hres] at h
      have := congrArg Prod.fst h
      simp at this
  | some x =>
      rcases x with ⟨act, p'⟩
      have hid_lt : id < st.nextId := hwf.2 id (mem_of_findResolve hf)
      have hnotp' : id ∉ pendingIds p' := not_mem_rest_of_findResolve hf hwf.1
      cases act with
      | none =>
          have hres : resolve st id r1 =
              (some ⟨[], []⟩, { st with pending := p' }) := by
            simp [resolve, hf]
          rw [hres] at h
          have hst := congrArg Prod.snd h
          simp only at hst
          subst hst
          have hnone : findResolve id r2 p' =
              (Option.none :
                Option (Option (Task Op Resp Ev) × List (Entry Op Resp Ev))) :=
            findResolve_eq_none r2 hnotp'
          simp [resolve, hnone]
      | some tk =>
          have hres : resolve st id r1 =
              (some ⟨(runTask tk ⟨st.nextId, p', [], [], st.crashed⟩).events,
                  (runTask tk ⟨st.nextId, p', [], [], st.crashed⟩).effects⟩,
                ⟨st.model,
                  (runTask tk ⟨st.nextId, p', [], [], st.crashed⟩).nextId,
                  (runTask tk ⟨st.nextId, p', [], [], st.crashed⟩).pending,
                  (runTask tk ⟨st.nextId, p', [], [], st.crashed⟩).crashed⟩) := by
            simp [resolve, hf]
          rw [hres] at h
          have hst := congrArg Prod.snd h
          simp only at hst
          subst hst
          have hpend : (runTask tk ⟨st.nextId, p', [], [], st.crashed⟩).pending =
              p' ++ (runTask tk (blank st.nextId)).pending := by
            rw [runT_frame tk ⟨st.nextId, p', [], [], st.crashed⟩]
          have hnotin :
              id ∉ pendingIds
                (runTask tk ⟨st.nextId, p', [], [], st.crashed⟩).pending := by
            rw [hpend, pendingIds_append]
            intro hmem
            rcases List.mem_append.mp hmem with hm | hm
            · exact hnotp' hm
            · exact absurd ((runT_fresh tk st.nextId).2 id hm) (by omega)
          have hnone : findResolve id r2
              (runTask tk ⟨st.nextId, p', [], [], st.crashed⟩).pending =
              (Option.none :
                Option (Option (Task Op Resp Ev) × List (Entry Op Resp Ev))) :=
            findResolve_eq_none r2 hnotin
          simp [resolve, hnone]

/-- Witness for C4 at a concrete parked OneShot request. -/
theorem oneshot_at_most_once_witness :
    resolve (⟨(), 1, [Entry.single 0 (fun _ => Task.pure Command.none)],
        false⟩ : CoreState Unit Unit Unit Unit) 0 () =
      (some ⟨[], []⟩, ⟨(), 1, [], false⟩) ∧
    resolve (⟨(), 1, [], false⟩ : CoreState Unit Unit Unit Unit) 0 () =
      (Option.none, ⟨(), 1, [], false⟩) :=
  ⟨rfl,
    @oneshot_at_most_once Unit Unit Unit Unit
      ⟨(), 1, [Entry.single 0 (fun _ => Task.pure Command.none)], false⟩
      ⟨(), 1, [], false⟩ 0 () () ⟨[], []⟩
      ⟨by decide, by decide⟩ rfl⟩

/-- Little-endian four-byte encoding of a 32-bit two's-complement integer.
Models `i32::to_ne_bytes` / `u32::to_ne_bytes`; native endianness is
modelled as little-endian. -/
def i32ToBytes (i : Int) : List Nat :=
  let n := (i % (2 ^ 32 : Int)).toNat
  [n % 256, n / 256 % 256, n / 256 ^ 2 % 256, n / 256 ^ 3 % 256]

/-- Little-endian decoding of four bytes into a 32-bit two's-complement
integer.  Models `i32::from_ne_bytes`; callers guard the length-4 check that
Rust's `try_into().unwrap()` performs. -/
def bytesToI32 (bs : List Nat) : Int :=
  let n : Nat := bs.getD 0 0 + 256 * bs.getD 1 0 + 256 ^ 2 * bs.getD 2 0 +
    256 ^ 3 * bs.getD 3 0
  if n < 2 ^ 31 then (n : Int) else (n : Int) - 2 ^ 32

/-- Modelled from the spec: the `crux_kv` error type is not in the sources;
it is carried opaquely through the core, so one string-carrying variant
suffices for every use site. -/
inductive KeyValueError : Type where
  | Other (message : String) : KeyValueError
deriving DecidableEq

/-- Modelled from the spec: `crux_kv::value::Value`, an optional byte
payload (the capability crate is not in the sources; its use in the tests
is `Value::None` and `bytes.into()`). -/
inductive Value : Type where
  | None : Value
  | Bytes (bytes : List Nat) : Value
deriving DecidableEq

/-- The `Option` view of a `Value`, as produced by the `.into()` conversions
in the tests. -/
def Value.toOption : Value → Option (List Nat)
  | .None => Option.none
  | .Bytes bs => some bs

/-- Modelled from the spec: `crux_kv::KeyValueOperation` as observed by the
tests in `crux_kv/src/tests.rs`. -/
inductive KeyValueOperation : Type where
  | Get (key : String) : KeyValueOperation
  | Set (key : String) (value : List Nat) : KeyValueOperation
  | Delete (key : String) : KeyValueOperation
  | Exists (key : String) : KeyValueOperation
  | ListKeys (pfx : String) (cursor : Nat) : KeyValueOperation
deriving DecidableEq

/-- Modelled from the spec: `crux_kv::KeyValueResponse` as observed by the
tests. -/
inductive KeyValueResponse : Type where
  | Get (value : Value) : KeyValueResponse
  | Set (previous : Value) : KeyValueResponse
  | Delete (previous : Value) : KeyValueResponse
  | Exists (is_present : Bool) : KeyValueResponse
  | ListKeys (keys : List String) (next_cursor : Nat) : KeyValueResponse
deriving DecidableEq

/-- Modelled from the spec: `crux_kv::KeyValueResult`. -/
inductive KeyValueResult : Type where
  | Ok (response : KeyValueResponse) : KeyValueResult
  | Err (error : KeyValueError) : KeyValueResult
deriving DecidableEq

namespace KVApp

/-- `Event` of the KV test app (`crux_kv/src/tests.rs`). -/
inductive Event : Type where
  | Get : Event
  | Set : Event
  | Delete : Event
  | Exists : Event
  | ListKeys : Event
  | GetThenSet : Event
  | GetResponse (r : Except KeyValueError (Option (List Nat))) : Event
  | SetResponse (r : Except KeyValueError (Option (List Nat))) : Event
  | ExistsResponse (r : Except KeyValueError Bool) : Event
  | ListKeysResponse (r : Except KeyValueError (List String × Nat)) : Event

/-- `Model` of the KV test app. -/
structure Model : Type where
  value : Int
  keys : List String
  cursor : Nat
  successful : Bool

/-- `ViewModel` of the KV test app. -/
structure ViewModel : Type where
  result : String

/-- The derived `Effect` enum over the app's capabilities
`{ key_value, render }`. -/
inductive Effect : Type where
  | KeyValue (op : KeyValueOperation) : Effect
  | Render : Effect
deriving DecidableEq

/-- The typed responses matching `Effect`, one variant per capability. -/
inductive Response : Type where
  | KeyValue (r : KeyValueResult) : Response
  | Render : Response

/-- Modelled from the spec (4.F `request_from_shell`): awaiting a KV
operation; a response of the wrong capability variant cannot occur through
the typed harness and is modelled as a panic. -/
def kvAwait {Ev : Type} (op : KeyValueOperation)
    (k : KeyValueResult → Task Effect Response Ev) : Task Effect Response Ev :=
  .await (.KeyValue op) fun r =>
    match r with
    | .KeyValue res => k res
    | _ => .panic

/-- Modelled from the spec: `KeyValue::get_async`, converting the shell's
`KeyValueResult` into `Result<Option<Vec<u8>>, KeyValueError>`. -/
def kvGetAsync {Ev : Type} (key : String)
    (k : Except KeyValueError (Option (List Nat)) → Task Effect Response Ev) :
    Task Effect Response Ev :=
  kvAwait (.Get key) fun res =>
    match res with
    | .Ok (.Get v) => k (.ok v.toOption)
    | .Err e => k (.error e)
    | .Ok _ => .panic

/-- Modelled from the spec: `KeyValue::set_async`. -/
def kvSetAsync {Ev : Type} (key : String) (value : List Nat)
    (k : Except KeyValueError (Option (List Nat)) → Task Effect Response Ev) :
    Task Effect Response Ev :=
  kvAwait (.Set key value) fun res =>
    match res with
    | .Ok (.Set prev) => k (.ok prev.toOption)
    | .Err e => k (.error e)
    | .Ok _ => .panic

/-- Modelled from the spec: `KeyValue::delete_async`. -/
def kvDeleteAsync {Ev : Type} (key : String)
    (k : Except KeyValueError (Option (List Nat)) → Task Effect Response Ev) :
    Task Effect Response Ev :=
  kvAwait (.Delete key) fun res =>
    match res with
    | .Ok (.Delete prev) => k (.ok prev.toOption)
    | .Err e => k (.error e)
    | .Ok _ => .panic

/-- Modelled from the spec: `KeyValue::exists_async`. -/
def kvExistsAsync {Ev : Type} (key : String)
    (k : Except KeyValueError Bool → Task Effect Response Ev) :
    Task Effect Response Ev :=
  kvAwait (.Exists key) fun res =>
    match res with
    | .Ok (.Exists b) => k (.ok b)
    | .Err e => k (.error e)
    | .Ok _ => .panic

/-- Modelled from the spec: `KeyValue::list_keys_async`. -/
def kvListKeysAsync {Ev : Type} (pfx : String) (cursor : Nat)
    (k : Except KeyValueError (List String × Nat) → Task Effect Response Ev) :
    Task Effect Response Ev :=
  kvAwait (.ListKeys pfx cursor) fun res =>
    match res with
    | .Ok (.ListKeys keys cur) => k (.ok (keys, cur))
    | .Err e => k (.error e)
    | .Ok _ => .panic

/-- Modelled from the spec: `KeyValue::get(key, make_event)`, an effect that
awaits the get and dispatches the wrapped response event. -/
def kvGet {Ev : Type} (key : String)
    (f : Except KeyValueError (Option (List Nat)) → Ev) :
    Command Effect Response Ev :=
  .effectT (kvGetAsync key fun r => .pure (.event (f r)))

/-- Modelled from the spec: `KeyValue::set(key, value, make_event)`. -/
def kvSet {Ev : Type} (key : String) (value : List Nat)
    (f : Except KeyValueError (Option (List Nat)) → Ev) :
    Command Effect Response Ev :=
  .effectT (kvSetAsync key value fun r => .pure (.event (f r)))

/-- Modelled from the spec: `KeyValue::delete(key, make_event)`. -/
def kvDelete {Ev : Type} (key : String)
    (f : Except KeyValueError (Option (List Nat)) → Ev) :
    Command Effect Response Ev :=
  .effectT (kvDeleteAsync key fun r => .pure (.event (f r)))

/-- Modelled from the spec: `KeyValue::exists(key, make_event)`. -/
def kvExists {Ev : Type} (key : String) (f : Except KeyValueError Bool → Ev) :
    Command Effect Response Ev :=
  .effectT (kvExistsAsync key fun r => .pure (.event (f r)))

/-- Modelled from the spec: `KeyValue::list_keys(pfx, cursor, make_event)`. -/
def kvListKeys {Ev : Type} (pfx : String) (cursor : Nat)
    (f : Except KeyValueError (List String × Nat) → Ev) :
    Command Effect Response Ev :=
  .effectT (kvListKeysAsync pfx cursor fun r => .pure (.event (f r)))

/-- `Render::render()` for this app's effect enumeration: a OneShot effect
acknowledged with a unit-like response (source:
`crux_core/src/capabilities/render.rs`, used via `caps.render.render()`). -/
def renderCmd {Ev : Type} : Command Effect Response Ev :=
  .effectT (.await .Render fun r =>
    match r with
    | .Render => .pure .none
    | _ => .panic)

/-- `App::update` of the KV test app (`crux_kv/src/tests.rs`, lines 48-119);
Rust panics become the `panic` command/task. -/
def update : Event → Model → Model × Command Effect Response Event
  | .Get, m => (m, kvGet "test" Event.GetResponse)
  | .Set, m => (m, kvSet "test" (i32ToBytes 42) Event.SetResponse)
  | .Delete, m => (m, kvDelete "test" Event.SetResponse)
  | .Exists, m => (m, kvExists "test" Event.ExistsResponse)
  | .ListKeys, m => (m, kvListKeys "test:" 0 Event.ListKeysResponse)
  | .GetThenSet, m =>
      (m, .effectT (kvGetAsync "test_num" fun res =>
        match res with
        | .ok (some value) =>
            if value.length = 4 then
              kvSetAsync "test_num" (i32ToBytes (bytesToI32 value + 1))
                fun result => .pure (.event (Event.SetResponse result))
            else .panic
        | _ => .panic))
  | .GetResponse (.ok (some value)), m =>
      if 4 ≤ value.length then
        ({ m with value := bytesToI32 (value.take 4) }, .none)
      else (m, .panic)
  | .GetResponse (.ok Option.none), m => (m, .panic)
  | .GetResponse (.error _), m => (m, .panic)
  | .SetResponse (.ok _), m => ({ m with successful := true }, renderCmd)
  | .SetResponse (.error _), m => (m, .panic)
  | .ExistsResponse (.ok _), m => ({ m with successful := true }, renderCmd)
  | .ExistsResponse (.error _), m => (m, .panic)
  | .ListKeysResponse (.ok kc), m =>
      ({ m with keys := kc.1, cursor := kc.2 }, renderCmd)
  | .ListKeysResponse (.error _), m => (m, .panic)

/-- `App::view` of the KV test app (`crux_kv/src/tests.rs`, lines 121-125). -/
def view (m : Model) : ViewModel :=
  ⟨"Success: " ++ (if m.successful then "true" else "false") ++
    ", Value: " ++ toString m.value⟩

/-- The fresh core used by `AppTester::default()` with the default model. -/
def st0 : CoreState Effect Response Event Model :=
  ⟨⟨0, [], 0, false⟩, 0, [], false⟩

/-- First turn of the S2 scenario: `process_event(GetThenSet)`. -/
def step1 : TurnOut Effect Event × CoreState Effect Response Event Model :=
  processEvent update Event.GetThenSet st0

/-- Second turn: resolve the get with the bytes of `17u32`. -/
def step2 :
    Option (TurnOut Effect Event) × CoreState Effect Response Event Model :=
  resolve step1.2 0 (.KeyValue (.Ok (.Get (.Bytes [17, 0, 0, 0]))))

/-- Third turn: resolve the set with `Ok(None)`. -/
def step3 :
    Option (TurnOut Effect Event) × CoreState Effect Response Event Model :=
  resolve step2.2 1 (.KeyValue (.Ok (.Set .None)))

end KVApp

/-- C2: In the KV get-then-set chain (`Event::GetThenSet` on the `crux_kv`
test app), a single `process_event` queues exactly one effect
`Get{key:"test_num"}`; resolving it with the bytes of `17u32` (native
endian, modelled little-endian) causes the app to compute `18` and queue
exactly one effect `Set{key:"test_num", value:le_bytes(18)}` with no
events; resolving that with `Ok(None)` yields exactly the event
`SetResponse(Ok(None))` and no further effects. -/
theorem kv_get_then_set_chain :
    KVApp.step1.1 = ⟨[], [(0, .KeyValue (.Get "test_num"))]⟩ ∧
    KVApp.step2.1 =
      some ⟨[], [(1, .KeyValue (.Set "test_num" (i32ToBytes 18)))]⟩ ∧
    i32ToBytes 18 = [18, 0, 0, 0] ∧
    KVApp.step3.1 = some ⟨[KVApp.Event.SetResponse (.ok Option.none)], []⟩ ∧
    KVApp.step3.2.pending = [] :=
  ⟨rfl, rfl, rfl, rfl, rfl⟩

/-- A URL (as a character list) needs a trailing slash when nothing follows
the `://` scheme separator but a bare authority. -/
def needsSlash : List Char → Bool
  | [] => false
  | ':' :: '/' :: '/' :: rest => !(rest.contains '/')
  | _ :: rest => needsSlash rest

/-- Modelled from the spec: URL normalization performed by the crux_http
client when building the protocol request: a URL whose authority has no path
gains a trailing slash (observed in the tests: `http://example.com`
becomes `http://example.com/`). -/
def normalizeUrl (s : String) : String :=
  if needsSlash s.data then s ++ "/" else s

/-- ASCII lowercasing of one character. -/
def lowerChar (c : Char) : Char :=
  if 'A' ≤ c ∧ c ≤ 'Z' then Char.ofNat (c.toNat + 32) else c

/-- ASCII lowercasing of a string, as the http client applies to header
names. -/
def lowerString (s : String) : String :=
  String.mk (s.data.map lowerChar)

/-- Modelled from the spec: `crux_http::protocol::HttpRequest` as observed
by the tests; bodies are modelled as strings. -/
structure HttpRequest : Type where
  method : String
  url : String
  headers : List (String × String)
  body : String
deriving DecidableEq

/-- `HttpRequest::get(url)` builder. -/
def HttpRequest.get (url : String) : HttpRequest :=
  ⟨"GET", normalizeUrl url, [], ""⟩

/-- `HttpRequest::post(url)` builder. -/
def HttpRequest.post (url : String) : HttpRequest :=
  ⟨"POST", normalizeUrl url, [], ""⟩

/-- `.header(name, value)` builder step; the client lowercases header
names (observed in the tests: `Authorization` arrives as
`authorization`). -/
def HttpRequest.header (r : HttpRequest) (n v : String) : HttpRequest :=
  { r with headers := r.headers ++ [(lowerString n, v)] }

/-- `.body_bytes(..)` builder step: sets the body and the
`content-type: application/octet-stream` header (observed in the tests). -/
def HttpRequest.bodyBytes (r : HttpRequest) (b : String) : HttpRequest :=
  { r with
    body := b
    headers := r.headers ++ [("content-type", "application/octet-stream")] }

/-- Modelled from the spec: `crux_http::protocol::HttpResponse`. -/
structure HttpResponse : Type where
  status : Nat
  headers : List (String × String)
  body : String
deriving DecidableEq

/-- Modelled from the spec: `crux_http::HttpError`; the tests exercise the
`Io` variant, `Json` stands for the client's decode failures. -/
inductive HttpError : Type where
  | Io (message : String) : HttpError
  | Json (message : String) : HttpError
deriving DecidableEq

/-- Modelled from the spec: `crux_http::protocol::HttpResult`. -/
inductive HttpResult : Type where
  | Ok (response : HttpResponse) : HttpResult
  | Err (error : HttpError) : HttpResult
deriving DecidableEq

namespace HttpApp

/-- `crux_http::Response<String>` as carried by the test app's `Set` event:
status, headers, and the (consumable) string body. -/
structure ResponseString : Type where
  status : Nat
  headers : List (String × String)
  body : Option String
deriving DecidableEq

/-- `Event` of the HTTP test app (`crux_http/tests/with_tester.rs`). -/
inductive Event : Type where
  | Get : Event
  | Post : Event
  | GetPostChain : Event
  | ConcurrentGets : Event
  | ComposeComplete (status : Nat) : Event
  | Set (r : Except HttpError ResponseString) : Event

/-- `Model` of the HTTP test app. -/
structure Model : Type where
  body : String
  values : List String

/-- `ViewModel` of the HTTP test app. -/
structure ViewModel : Type where
  result : String

/-- The derived `Effect` enum over the app's capabilities `{ http }`. -/
inductive Effect : Type where
  | Http (req : HttpRequest) : Effect
deriving DecidableEq

/-- The typed responses matching `Effect`. -/
inductive Response : Type where
  | Http (r : HttpResult) : Response

/-- Modelled from the spec (4.F `request_from_shell`): awaiting an HTTP
request. -/
def httpAwait {Ev : Type} (req : HttpRequest)
    (k : HttpResult → Task Effect Response Ev) : Task Effect Response Ev :=
  .await (.Http req) fun r =>
    match r with
    | .Http res => k res

/-- Modelled from the spec: `.expect_string().send_and_respond(f)`: queue
the request and dispatch the wrapped `Result<Response<String>>` event; a
capability error passes through uninterpreted. -/
def sendAndRespondString {Ev : Type} (req : HttpRequest)
    (f : Except HttpError ResponseString → Ev) : Command Effect Response Ev :=
  .effectT (httpAwait req fun res =>
    .pure (.event (f
      (match res with
       | .Ok resp => .ok ⟨resp.status, resp.headers, some resp.body⟩
       | .Err e => .error e))))

/-- The `GetPostChain` future (`with_tester.rs`, lines 58-79); the
`expect("Send async should succeed")` calls become panics. -/
def getPostChainTask : Task Effect Response Event :=
  httpAwait (HttpRequest.get "http://example.com") fun res =>
    match res with
    | .Ok resp =>
        httpAwait (HttpRequest.post ("http://example.com/" ++ resp.body))
          fun res2 =>
            match res2 with
            | .Ok resp2 => .pure (.event (.ComposeComplete resp2.status))
            | .Err _ => .panic
    | .Err _ => .panic

/-- The `ConcurrentGets` future (`with_tester.rs`, lines 80-101): a
`futures join` of the GETs for `/one` and `/two`, completing with the
maximum status. -/
def concurrentGetsTask : Task Effect Response Event :=
  .await2 (.Http (HttpRequest.get "http://example.com/one"))
    (.Http (HttpRequest.get "http://example.com/two")) fun r1 r2 =>
    match r1, r2 with
    | .Http (.Ok one), .Http (.Ok two) =>
        .pure (.event (.ComposeComplete (max one.status two.status)))
    | _, _ => .panic

/-- `App::update` of the HTTP test app (`with_tester.rs`, lines 44-118). -/
def update : Event → Model → Model × Command Effect Response Event
  | .Get, m =>
      (m, sendAndRespondString
        ((HttpRequest.get "http://example.com").header "Authorization"
          "secret-token") Event.Set)
  | .Post, m =>
      (m, sendAndRespondString
        ((HttpRequest.post "http://example.com").bodyBytes "The Body")
        Event.Set)
  | .GetPostChain, m => (m, .effectT getPostChainTask)
  | .ConcurrentGets, m => (m, .effectT concurrentGetsTask)
  | .ComposeComplete status, m =>
      ({ m with values := m.values ++ [toString status] }, .none)
  | .Set (.ok response), m =>
      match response.body with
      | some b =>
          let vs := (response.headers.filter fun h => h.1 = "my_header").map
            fun h => h.2
          if vs.isEmpty then ({ m with body := b }, .panic)
          else ({ m with body := b, values := vs }, .none)
      | Option.none => (m, .panic)
  | .Set (.error _), m => (m, .none)

/-- `App::view` of the HTTP test app (`with_tester.rs`, lines 120-124). -/
def view (m : Model) : ViewModel :=
  ⟨"Body: " ++ m.body⟩

/-- The fresh core with the default model. -/
def st0 : CoreState Effect Response Event Model :=
  ⟨⟨"", []⟩, 0, [], false⟩

/-- First turn of the S3 scenario: `process_event(ConcurrentGets)`. -/
def cg1 : TurnOut Effect Event × CoreState Effect Response Event Model :=
  processEvent update Event.ConcurrentGets st0

/-- Resolve the second request (`/two`) first. -/
def cg2 :
    Option (TurnOut Effect Event) × CoreState Effect Response Event Model :=
  resolve cg1.2 1 (.Http (.Ok ⟨200, [], "one"⟩))

/-- Then resolve the first request (`/one`). -/
def cg3 :
    Option (TurnOut Effect Event) × CoreState Effect Response Event Model :=
  resolve cg2.2 0 (.Http (.Ok ⟨200, [], "one"⟩))

/-- First turn of the S4 scenario: `process_event(Get)`. -/
def ge1 : TurnOut Effect Event × CoreState Effect Response Event Model :=
  processEvent update Event.Get st0

/-- Resolve the GET with the shell-side I/O error. -/
def ge2 :
    Option (TurnOut Effect Event) × CoreState Effect Response Event Model :=
  resolve ge1.2 0
    (.Http (.Err (.Io "Socket shenanigans prevented the request")))

end HttpApp

/-- C3: For two effects emitted within the same turn by `join(a, b)`, `a`'s
effect precedes `b`'s in the returned queue; in particular, for the
ConcurrentGets app a single `process_event` queues two `Effect::Http`
requests, for `/one` then `/two` in that order; resolving `/two` first
yields no events and no effects, and subsequently resolving `/one` yields
exactly one event `ComposeComplete(200)`. -/
theorem join_ordering_and_concurrent_gets :
    (∀ (Op Resp Ev : Type) (a b : Command Op Resp Ev) (s : ExecSt Op Resp Ev),
      (runCommand (Command.join a b) s).effects =
        s.effects ++ turnEffects a s.nextId ++
          turnEffects b (turnNext a s.nextId)) ∧
    (∀ (Op Resp Ev : Type) (opA opB : Op)
        (k : Resp → Resp → Task Op Resp Ev) (s : ExecSt Op Resp Ev),
      (runTask (Task.await2 opA opB k) s).effects =
        s.effects ++ [(s.nextId, opA), (s.nextId + 1, opB)]) ∧
    HttpApp.cg1.1 =
      ⟨[], [(0, .Http (HttpRequest.get "http://example.com/one")),
            (1, .Http (HttpRequest.get "http://example.com/two"))]⟩ ∧
    HttpApp.cg2.1 = some ⟨[], []⟩ ∧
    HttpApp.cg3.1 = some ⟨[HttpApp.Event.ComposeComplete 200], []⟩ :=
  ⟨fun _ _ _ a b s => join_effects_ordered a b s,
   fun _ _ _ _ _ _ _ => rfl, rfl, rfl, rfl⟩

/-- C6: Capability errors pass through the core uninterpreted: when the app
awaits an HTTP GET and the host resolves the request with
`Err(Io("Socket shenanigans prevented the request"))`, exactly one event
`Set(Err(Io("Socket shenanigans prevented the request")))` is observed,
with the error string preserved verbatim. -/
theorem shell_error_passthrough :
    HttpApp.ge1.1 =
      ⟨[], [(0, .Http ⟨"GET", "http://example.com/",
        [("authorization", "secret-token")], ""⟩)]⟩ ∧
    HttpApp.ge2.1 =
      some ⟨[HttpApp.Event.Set
        (.error (.Io "Socket shenanigans prevented the request"))], []⟩ ∧
    HttpApp.ge2.2.pending = [] :=
  ⟨rfl, rfl, rfl⟩

/-- `RenderOperation`, the single operation `Render` implements (source:
`crux_core/src/capabilities/render.rs`, lines 31-37). -/
structure RenderOperation : Type where
deriving DecidableEq

/-- `Operation for RenderOperation { type Output = (); }` (source:
`render.rs`, lines 35-37). -/
instance : Operation RenderOperation :=
  ⟨Unit⟩

/-- Modelled from the spec (4.F, 9 Design notes): the capability context,
abstracted to its event-injection function.  A context typed at `Ev`
submits injected events to the executor through `send`, the composition of
the `map_event` chain down to the root event type `R`; `map_event` wraps
the submission function. -/
structure CapabilityContext (Op R Ev : Type) : Type where
  send : Ev → R

/-- `CapabilityContext::map_event(f)` (spec 4.F): returns a context that
accepts `NewEv` and forwards via `f`. -/
def CapabilityContext.map_event {Op R Ev NewEv : Type}
    (ctx : CapabilityContext Op R Ev) (f : NewEv → Ev) :
    CapabilityContext Op R NewEv :=
  ⟨fun e => ctx.send (f e)⟩

/-- The `Render` capability (source: `render.rs`, lines 19-21): a wrapper
around its context. -/
structure Render (R Ev : Type) : Type where
  context : CapabilityContext RenderOperation R Ev

/-- `Render::new(context)` (source: `render.rs`, lines 44-46). -/
def Render.new {R Ev : Type} (context : CapabilityContext RenderOperation R Ev) :
    Render R Ev :=
  ⟨context⟩

/-- `Render::map_event(f)` (source: `render.rs`, lines 62-69):
`Render::new(self.context.map_event(f))`. -/
def Render.map_event {R Ev NewEv : Type} (r : Render R Ev) (f : NewEv → Ev) :
    Render R NewEv :=
  Render.new (r.context.map_event f)

/-- Modelled from the spec (4.F `notify_shell`): enqueue a OneShot effect
whose response is `()`; the future completes when the shell resolves it. -/
def notifyShell {Op Ev : Type} (op : Op) : Task Op Unit Ev :=
  .await op fun _ => .pure .none

/-- `Render::render()` (source: `render.rs`, lines 50-55): the task that
awaits `notify_shell(RenderOperation)`, wrapped in `Command::effect` by the
app that emits it. -/
def renderCommand {Ev : Type} : Command RenderOperation Unit Ev :=
  .effectT (notifyShell RenderOperation.mk)

namespace RenderEx

/-- An app whose update emits `Command::effect` awaiting
`notify_shell(Render)` (spec S1). -/
def renderApp : Unit → Unit → Unit × Command RenderOperation Unit Unit :=
  fun _ m => (m, renderCommand)

/-- The fresh core for the S1 scenario. -/
def r0 : CoreState RenderOperation Unit Unit Unit :=
  ⟨(), 0, [], false⟩

/-- One `process_event` queuing the render effect. -/
def r1 : TurnOut RenderOperation Unit ×
    CoreState RenderOperation Unit Unit Unit :=
  processEvent renderApp () r0

/-- `resolve(handle, ())`. -/
def r2 : Option (TurnOut RenderOperation Unit) ×
    CoreState RenderOperation Unit Unit Unit :=
  resolve r1.2 0 ()

end RenderEx

/-- C7: `Render::render()` emits exactly one OneShot Render effect whose
response type is `()` (`RenderOperation`'s declared `Output` is the unit
type), and resolving that effect's handle with `()` completes the awaiting
task and produces no further effects and no events. -/
theorem render_notification :
    Operation.Output RenderOperation = Unit ∧
    RenderEx.r1.1 = ⟨[], [(0, RenderOperation.mk)]⟩ ∧
    RenderEx.r2.1 = some ⟨[], []⟩ ∧
    RenderEx.r2.2.pending = [] :=
  ⟨rfl, rfl, rfl, rfl⟩

/-- C8: Event mapping composes linearly: for every capability context and
pair of mapping functions `f`, `g`, `c.map_event(f).map_event(g)` equals
`c.map_event(x -> f(g(x)))`; the same holds for the `Render` capability,
and the composite context injects exactly the same events, so mapping
preserves the ordering and identity of effects. -/
theorem map_event_composition :
    (∀ (Op R A B C : Type) (ctx : CapabilityContext Op R A) (f : B → A)
        (g : C → B),
      (ctx.map_event f).map_event g = ctx.map_event (fun x => f (g x))) ∧
    (∀ (R A B C : Type) (r : Render R A) (f : B → A) (g : C → B),
      (r.map_event f).map_event g = r.map_event (fun x => f (g x))) ∧
    (∀ (Op R A B C : Type) (ctx : CapabilityContext Op R A) (f : B → A)
        (g : C → B) (e : C),
      ((ctx.map_event f).map_event g).send e = ctx.send (f (g e))) :=
  ⟨fun _ _ _ _ _ _ _ _ => rfl, fun _ _ _ _ _ _ _ => rfl,
   fun _ _ _ _ _ _ _ _ _ => rfl⟩

/-- Modelled from the spec: `crux_time::Instant` (the time capability crate
is not in the sources). -/
structure Instant : Type where
  seconds : Nat
  nanos : Nat
deriving DecidableEq

/-- Modelled from the spec: `crux_time::TimeResponse`; the cat_facts app
only consumes the `Now` variant. -/
inductive TimeResponse : Type where
  | Now (instant : Instant) : TimeResponse
deriving DecidableEq

/-- `CatFact` (source: `examples/cat_facts/shared/src/app.rs`, lines
20-30). -/
structure CatFact : Type where
  fact : String
  length : Int
deriving DecidableEq

/-- `CatFact::format` (source: `app.rs`, lines 26-30). -/
def CatFact.format (cf : CatFact) : String :=
  cf.fact ++ " (" ++ toString cf.length ++ " bytes)"

/-- `CatImage` (source: `app.rs`, lines 40-43). -/
structure CatImage : Type where
  href : String
deriving DecidableEq

/-- The cat-loading URL constant (source: `app.rs`, line 15). -/
def CAT_LOADING_URL : String :=
  "https://c.tenor.com/qACzaJ1EBVYAAAAd/tenor.gif"

/-- `crux_http::Response<T>` as carried by the cat_facts response events:
status, headers and the (consumable) typed body. -/
structure ResponseOf (α : Type) : Type where
  status : Nat
  headers : List (String × String)
  body : Option α
deriving DecidableEq

namespace CatFacts

/-- `Model` of the cat_facts app (source: `app.rs`, lines 32-38).  The
platform sub-model (`platform::Model`, not in the sources) is modelled from
the spec as the platform string it stores. -/
structure Model : Type where
  cat_fact : Option CatFact
  cat_image : Option CatImage
  platform : String
  time : Option String
deriving DecidableEq

/-- `ViewModel` of the cat_facts app (source: `app.rs`, lines 53-58). -/
structure ViewModel : Type where
  fact : String
  image : Option CatImage
  platform : String
deriving DecidableEq

/-- Modelled from the spec: the platform sub-app's event type
(`examples/cat_facts/shared/src/platform.rs` is not in the sources): `Get`
asks the shell for the platform string, `Set` carries the reply. -/
inductive PEvent : Type where
  | Get : PEvent
  | Set (platform : String) : PEvent

/-- `Event` of the cat_facts app (source: `app.rs`, lines 60-81). -/
inductive Event : Type where
  | None : Event
  | Clear : Event
  | Get : Event
  | Fetch : Event
  | GetPlatform : Event
  | Restore : Event
  | Platform (e : PEvent) : Event
  | SetState (r : Except KeyValueError (Option (List Nat))) : Event
  | CurrentTime (r : TimeResponse) : Event
  | SetFact (r : Except HttpError (ResponseOf CatFact)) : Event
  | SetImage (r : Except HttpError (ResponseOf CatImage)) : Event

/-- The derived `Effect` enum over `CatFactCapabilities`
(source: `app.rs`, lines 88-96): http, key_value, platform, render, time. -/
inductive Effect : Type where
  | Http (req : HttpRequest) : Effect
  | KeyValue (op : KeyValueOperation) : Effect
  | Platform : Effect
  | Render : Effect
  | Time : Effect
deriving DecidableEq

/-- The typed responses matching `Effect`. -/
inductive Response : Type where
  | Http (r : HttpResult) : Response
  | KeyValue (r : KeyValueResult) : Response
  | Platform (r : String) : Response
  | Render : Response
  | Time (r : TimeResponse) : Response

/-- Byte encoding of a string: character count, then code points. -/
def encodeStr (s : String) : List Nat :=
  s.data.length :: s.data.map Char.toNat

/-- Byte decoding of a string; returns the remainder. -/
def decodeStr : List Nat → Option (String × List Nat)
  | [] => Option.none
  | n :: rest =>
      if n ≤ rest.length then
        some (String.mk ((rest.take n).map Char.ofNat), rest.drop n)
      else Option.none

/-- Byte encoding of an integer. -/
def encodeInt : Int → List Nat
  | .ofNat n => [0, n]
  | .negSucc n => [1, n]

/-- Byte decoding of an integer; returns the remainder. -/
def decodeInt : List Nat → Option (Int × List Nat)
  | 0 :: n :: rest => some (Int.ofNat n, rest)
  | 1 :: n :: rest => some (Int.negSucc n, rest)
  | _ => Option.none

/-- Byte encoding of an optional value. -/
def encodeOptWith {α : Type} (enc : α → List Nat) : Option α → List Nat
  | Option.none => [0]
  | some a => 1 :: enc a

/-- Byte decoding of an optional value; returns the remainder. -/
def decodeOptWith {α : Type}
    (dec : List Nat → Option (α × List Nat)) :
    List Nat → Option (Option α × List Nat)
  | 0 :: rest => some (Option.none, rest)
  | 1 :: rest => (dec rest).map fun x => (some x.1, x.2)
  | _ => Option.none

/-- Byte encoding of a `CatFact`. -/
def encodeCatFact (cf : CatFact) : List Nat :=
  encodeStr cf.fact ++ encodeInt cf.length

/-- Byte decoding of a `CatFact`; returns the remainder. -/
def decodeCatFact (bs : List Nat) : Option (CatFact × List Nat) :=
  (decodeStr bs).bind fun f =>
    (decodeInt f.2).map fun l => (⟨f.1, l.1⟩, l.2)

/-- Byte encoding of a `CatImage`. -/
def encodeCatImage (im : CatImage) : List Nat :=
  encodeStr im.href

/-- Byte decoding of a `CatImage`; returns the remainder. -/
def decodeCatImage (bs : List Nat) : Option (CatImage × List Nat) :=
  (decodeStr bs).map fun h => (⟨h.1⟩, h.2)

/-- Modelled from the spec: `serde_json::to_vec(&model)` (serde_json is
outside the modelled sources); an executable stand-in codec over the four
model fields. -/
def serializeModel (m : Model) : List Nat :=
  encodeOptWith encodeCatFact m.cat_fact ++
    encodeOptWith encodeCatImage m.cat_image ++
    encodeStr m.platform ++
    encodeOptWith encodeStr m.time

/-- Modelled from the spec: `serde_json::from_slice::<Model>(&value)`; the
partial inverse of `serializeModel`, requiring full consumption of the
input. -/
def deserializeModel (bs : List Nat) : Option Model :=
  (decodeOptWith decodeCatFact bs).bind fun cf =>
    (decodeOptWith decodeCatImage cf.2).bind fun im =>
      (decodeStr im.2).bind fun pl =>
        (decodeOptWith decodeStr pl.2).bind fun tm =>
          match tm.2 with
          | [] => some ⟨cf.1, im.1, pl.1, tm.1⟩
          | _ => Option.none

/-- Digit-list parsing helper for the JSON body stand-ins. -/
def parseNatAux : List Char → Nat → Option Nat
  | [], acc => some acc
  | c :: rest, acc =>
      if c.isDigit then parseNatAux rest (acc * 10 + (c.toNat - 48))
      else Option.none

/-- Modelled from the spec: serde_json decoding of a `CatFact` from an HTTP
body (`expect_json`); the JSON grammar is outside the modelled sources, so
an executable stand-in accepts `fact|length`. -/
def decodeCatFactBody (s : String) : Option CatFact :=
  match s.data.splitOn '|' with
  | [fact, num] => (parseNatAux num 0).map fun n => ⟨String.mk fact, (n : Int)⟩
  | _ => Option.none

/-- Modelled from the spec: serde_json decoding of a `CatImage` from an HTTP
body; the stand-in reads the body as the href. -/
def decodeCatImageBody (s : String) : Option CatImage :=
  some ⟨s⟩

/-- Modelled from the spec (4.F): awaiting a KV operation on the cat_facts
effect enumeration. -/
def kvAwait {Ev : Type} (op : KeyValueOperation)
    (k : KeyValueResult → Task Effect Response Ev) : Task Effect Response Ev :=
  .await (.KeyValue op) fun r =>
    match r with
    | .KeyValue res => k res
    | _ => .panic

/-- Modelled from the spec: `KeyValue::get_async` on the cat_facts effect
enumeration. -/
def kvGetAsync {Ev : Type} (key : String)
    (k : Except KeyValueError (Option (List Nat)) → Task Effect Response Ev) :
    Task Effect Response Ev :=
  kvAwait (.Get key) fun res =>
    match res with
    | .Ok (.Get v) => k (.ok v.toOption)
    | .Err e => k (.error e)
    | .Ok _ => .panic

/-- Modelled from the spec: `KeyValue::set_async` on the cat_facts effect
enumeration. -/
def kvSetAsync {Ev : Type} (key : String) (value : List Nat)
    (k : Except KeyValueError (Option (List Nat)) → Task Effect Response Ev) :
    Task Effect Response Ev :=
  kvAwait (.Set key value) fun res =>
    match res with
    | .Ok (.Set prev) => k (.ok prev.toOption)
    | .Err e => k (.error e)
    | .Ok _ => .panic

/-- Modelled from the spec: `KeyValue::get(key, make_event)`. -/
def kvGet {Ev : Type} (key : String)
    (f : Except KeyValueError (Option (List Nat)) → Ev) :
    Command Effect Response Ev :=
  .effectT (kvGetAsync key fun r => .pure (.event (f r)))

/-- Modelled from the spec: `KeyValue::set(key, value, make_command)`, as
used in the `Clear` branch with `|_| Command::none()`. -/
def kvSet {Ev : Type} (key : String) (value : List Nat)
    (f : Except KeyValueError (Option (List Nat)) →
      Command Effect Response Ev) : Command Effect Response Ev :=
  .effectT (kvSetAsync key value fun r => .pure (f r))

/-- `Render::render_async()` as a task on the cat_facts effect
enumeration. -/
def renderAsyncTask {Ev : Type} : Task Effect Response Ev :=
  .await .Render fun r =>
    match r with
    | .Render => .pure .none
    | _ => .panic

/-- `Render::render()` as a command (`caps.render.render()`). -/
def renderCmd {Ev : Type} : Command Effect Response Ev :=
  .effectT renderAsyncTask

/-- Modelled from the spec: `Time::now(make_event)` (`caps.time.now`). -/
def timeNowCmd {Ev : Type} (f : TimeResponse → Ev) :
    Command Effect Response Ev :=
  .effectT (.await .Time fun r =>
    match r with
    | .Time tr => .pure (.event (f tr))
    | _ => .panic)

/-- Modelled from the spec: the platform capability request issued by the
platform sub-app. -/
def platformGetCmd {Ev : Type} (f : String → Ev) :
    Command Effect Response Ev :=
  .effectT (.await .Platform fun r =>
    match r with
    | .Platform s => .pure (.event (f s))
    | _ => .panic)

/-- Modelled from the spec (4.F): awaiting an HTTP request on the cat_facts
effect enumeration. -/
def httpAwait {Ev : Type} (req : HttpRequest)
    (k : HttpResult → Task Effect Response Ev) : Task Effect Response Ev :=
  .await (.Http req) fun r =>
    match r with
    | .Http res => k res
    | _ => .panic

/-- Modelled from the spec: `.expect_json().send_and_respond(f)` for a typed
body decoded by `dec`. -/
def sendAndRespondJson {α Ev : Type} (req : HttpRequest)
    (dec : String → Option α) (f : Except HttpError (ResponseOf α) → Ev) :
    Command Effect Response Ev :=
  .effectT (httpAwait req fun res =>
    .pure (.event (f
      (match res with
       | .Ok resp =>
           match dec resp.body with
           | some v => .ok ⟨resp.status, resp.headers, some v⟩
           | Option.none => .error (.Json "expected JSON body")
       | .Err e => .error e))))

/-- Modelled from the spec: the platform sub-app's update (`platform.rs` is
not in the sources): `Get` requests the platform string and dispatches
`Set`; `Set` stores it and renders. -/
def platformUpdate : PEvent → String → String × Command Effect Response PEvent
  | .Get, m => (m, platformGetCmd PEvent.Set)
  | .Set p, _ => (p, renderCmd)

/-- Modelled from the spec: the platform sub-app's view projection. -/
def platformView (m : String) : String :=
  m

/-- Modelled from the spec: chrono RFC3339 formatting of the resolved
instant (chrono is outside the modelled sources); an executable
stand-in. -/
def instantToRfc3339 (i : Instant) : String :=
  toString i.seconds ++ "." ++ toString i.nanos ++ "Z"

/-- The `Fetch` branch shared by `Event::Fetch` and `Event::Get` without a
cached fact (source: `app.rs`, lines 140-157). -/
def fetchBranch (m : Model) : Model × Command Effect Response Event :=
  let m' := { m with cat_image := some ⟨CAT_LOADING_URL⟩ }
  let eff1 := sendAndRespondJson (HttpRequest.get "https://catfact.ninja/fact")
    decodeCatFactBody Event.SetFact
  let eff2 := sendAndRespondJson
    (HttpRequest.get "https://crux-counter.fly.dev/cat")
    decodeCatImageBody Event.SetImage
  let eff3 := renderCmd
  (m', (eff1.join eff2).join eff3)

/-- `CatFacts::update` (source: `app.rs`, lines 114-220); Rust panics
become `panic` commands/tasks, `KEY` is `"state"`. -/
def update : Event → Model → Model × Command Effect Response Event
  | .GetPlatform, m =>
      let pr := platformUpdate .Get m.platform
      ({ m with platform := pr.1 }, pr.2.mapEv Event.Platform)
  | .Platform pe, m =>
      let pr := platformUpdate pe m.platform
      ({ m with platform := pr.1 }, pr.2.mapEv Event.Platform)
  | .Clear, m =>
      let m' := { m with cat_fact := Option.none, cat_image := Option.none }
      let bytes := serializeModel m'
      (m', (kvSet "state" bytes fun _ => Command.none).join renderCmd)
  | .Get, m =>
      match m.cat_fact with
      | some _ => (m, renderCmd)
      | Option.none => fetchBranch m
  | .Fetch, m => fetchBranch m
  | .SetFact (.ok response), m =>
      match response.body with
      | some fact =>
          let m' := { m with cat_fact := some fact }
          let bytes := serializeModel m'
          (m', (Command.effectT (kvSetAsync "state" bytes fun _ =>
            .pure .none)).join (timeNowCmd Event.CurrentTime))
      | Option.none => (m, .panic)
  | .SetImage (.ok response), m =>
      match response.body with
      | some image =>
          let m' := { m with cat_image := some image }
          let bytes := serializeModel m'
          (m', (Command.effectT (kvSetAsync "state" bytes fun _ =>
            .pure .none)).joinEffect renderAsyncTask)
      | Option.none => (m, .panic)
  | .SetFact (.error _), m => (m, .none)
  | .SetImage (.error _), m => (m, .none)
  | .CurrentTime (.Now instant), m =>
      let m' := { m with time := some (instantToRfc3339 instant) }
      let bytes := serializeModel m'
      (m', (Command.effectT (kvSetAsync "state" bytes fun res =>
        .pure (.event (Event.SetState res)))).joinEffect renderAsyncTask)
  | .Restore, m => (m, kvGet "state" Event.SetState)
  | .SetState (.ok (some value)), m =>
      match deserializeModel value with
      | some m2 => (m2, renderCmd)
      | Option.none => (m, .none)
  | .SetState (.ok Option.none), m => (m, .none)
  | .SetState (.error _), m => (m, .none)
  | .None, m => (m, .none)

/-- `CatFacts::view` (source: `app.rs`, lines 222-237). -/
def view (m : Model) : ViewModel :=
  let fact :=
    match m.cat_fact, m.time with
    | some f, some t => "Fact from " ++ t ++ ": " ++ f.format
    | some f, Option.none => f.format
    | Option.none, _ => "No fact"
  ⟨fact, m.cat_image, platformView m.platform⟩

/-- A fresh core around a given cat_facts model. -/
def st0 (m : Model) : CoreState Effect Response Event Model :=
  ⟨m, 0, [], false⟩

end CatFacts

/-- C5: In the restore flow (`Event::Restore` on the cat_facts app), the
app queues a kv get effect for key `"state"`; resolving it delivers the
`SetState` event; when the bytes deserialize to a `Model`, the model is
replaced by the deserialized value and exactly one `Effect::Render` is
queued; when the host instead resolves with `Ok(None)`, no further effects
are produced and the model is unchanged. -/
theorem restore_flow :
    (∀ m : CatFacts.Model,
      (processEvent CatFacts.update CatFacts.Event.Restore
          (CatFacts.st0 m)).1 =
        ⟨[], [(0, .KeyValue (.Get "state"))]⟩ ∧
      (processEvent CatFacts.update CatFacts.Event.Restore
          (CatFacts.st0 m)).2.model = m) ∧
    (∀ (m : CatFacts.Model) (bs : List Nat),
      (resolve (processEvent CatFacts.update CatFacts.Event.Restore
            (CatFacts.st0 m)).2 0
          (.KeyValue (.Ok (.Get (.Bytes bs))))).1 =
        some ⟨[CatFacts.Event.SetState (.ok (some bs))], []⟩) ∧
    (∀ (m : CatFacts.Model) (bs : List Nat) (m2 : CatFacts.Model),
      CatFacts.deserializeModel bs = some m2 →
      (processEvent CatFacts.update
          (CatFacts.Event.SetState (.ok (some bs))) (CatFacts.st0 m)).1 =
        ⟨[], [(0, CatFacts.Effect.Render)]⟩ ∧
      (processEvent CatFacts.update
          (CatFacts.Event.SetState (.ok (some bs))) (CatFacts.st0 m)).2.model =
        m2) ∧
    (∀ m : CatFacts.Model,
      processEvent CatFacts.update
          (CatFacts.Event.SetState (.ok Option.none)) (CatFacts.st0 m) =
        (⟨[], []⟩, CatFacts.st0 m)) := by
  refine ⟨fun m => ⟨rfl, rfl⟩, fun m bs => rfl, ?_, fun m => rfl⟩
  intro m bs m2 h
  constructor
  · simp [processEvent, CatFacts.update, h, runCommand, runTask,
      CatFacts.renderCmd, CatFacts.renderAsyncTask, CatFacts.st0]
  · simp [processEvent, CatFacts.update, h, runCommand, runTask,
      CatFacts.renderCmd, CatFacts.renderAsyncTask, CatFacts.st0]

/-- Witness for C5 at concrete bytes that deserialize to a model. -/
theorem restore_flow_witness :
    CatFacts.deserializeModel [0, 0, 0, 0] =
      some ⟨Option.none, Option.none, "", Option.none⟩ ∧
    (processEvent CatFacts.update
        (CatFacts.Event.SetState (.ok (some [0, 0, 0, 0])))
        (CatFacts.st0 ⟨some ⟨"f", 1⟩, Option.none, "p", Option.none⟩)).2.model =
      ⟨Option.none, Option.none, "", Option.none⟩ :=
  ⟨rfl, (restore_flow.2.2.1 ⟨some ⟨"f", 1⟩, Option.none, "p", Option.none⟩
    [0, 0, 0, 0] ⟨Option.none, Option.none, "", Option.none⟩ rfl).2⟩

/-- C9: `view` is a pure projection: the facade's `view` leaves the core
state untouched (so it triggers no executor activity and emits no effects
or events) and returns exactly the projection of the model; and for the
cat_facts and KV apps, equal models yield equal view models. -/
theorem view_pure_projection :
    (∀ (Op Resp Ev Model VM : Type) (vf : Model → VM)
        (st : CoreState Op Resp Ev Model),
      (viewFacade vf st).2 = st ∧ (viewFacade vf st).1 = vf st.model) ∧
    (∀ m1 m2 : CatFacts.Model, m1 = m2 →
      CatFacts.view m1 = CatFacts.view m2) ∧
    (∀ m1 m2 : KVApp.Model, m1 = m2 → KVApp.view m1 = KVApp.view m2) :=
  ⟨fun _ _ _ _ _ _ _ => ⟨rfl, rfl⟩,
   fun _ _ h => by rw [h],
   fun _ _ h => by rw [h]⟩

/-- Witness for C9 at a concrete core state and model. -/
theorem view_pure_projection_witness :
    (viewFacade KVApp.view KVApp.st0).2 = KVApp.st0 ∧
    KVApp.view ⟨0, [], 0, false⟩ = KVApp.view ⟨0, [], 0, false⟩ :=
  ⟨(view_pure_projection.1 KVApp.Effect KVApp.Response KVApp.Event KVApp.Model
      KVApp.ViewModel KVApp.view KVApp.st0).1,
   view_pure_projection.2.2 ⟨0, [], 0, false⟩ ⟨0, [], 0, false⟩ rfl⟩

/-- C10: Error responses are absorbed atomically by the example apps: for
every model, `update` applied to an error-carrying response event
(cat_facts `SetFact(Err(_))`, `SetImage(Err(_))`, `SetState(Err(_))`;
crux_http test app `Set(Err(_))`) returns the empty command, so no effects
and no events are produced, and leaves every field of the model
unchanged. -/
theorem error_events_frame :
    (∀ (m : CatFacts.Model) (e : HttpError),
      CatFacts.update (.SetFact (.error e)) m = (m, .none)) ∧
    (∀ (m : CatFacts.Model) (e : HttpError),
      CatFacts.update (.SetImage (.error e)) m = (m, .none)) ∧
    (∀ (m : CatFacts.Model) (e : KeyValueError),
      CatFacts.update (.SetState (.error e)) m = (m, .none)) ∧
    (∀ (m : HttpApp.Model) (e : HttpError),
      HttpApp.update (.Set (.error e)) m = (m, .none)) ∧
    (∀ (Op Resp Ev : Type) (s : ExecSt Op Resp Ev),
      runCommand Command.none s = s) :=
  ⟨fun _ _ => rfl, fun _ _ => rfl, fun _ _ => rfl, fun _ _ => rfl,
   fun _ _ _ _ => rfl⟩

end Crux
